import Mathlib

/-!
Verification of the schema-metadata core of `dgraph/cmd/migrate/table_info.go`.

The Go source is shallowly embedded: each Go function becomes a Lean
function over explicit data.  Go maps become association lists carrying
an explicit (otherwise unspecified) enumeration order; Go pointers and
runtime panics are made explicit through the `GoOutcome` result type.
-/

/-- Result of running a piece of Go code: a normal value, an error
returned through the `error` result, or a runtime panic (`fatal`). -/
inductive GoOutcome (α : Type) where
  | ok (val : α)
  | errReturn (msg : String)
  | fatal (msg : String)
deriving DecidableEq

/-- Message of a Go nil-pointer dereference panic. -/
def nilDerefMsg : String := "runtime error: invalid memory address or nil pointer dereference"

/-- Message produced by `x.AssertTrue` on a false condition. -/
def assertMsg : String := "Assert failed"

/-- KeyType from table_info.go: `NONE`, `PRIMARY`, `MULTI` (iota, zero value NONE). -/
inductive KeyType where
  | NONE
  | PRIMARY
  | MULTI
deriving DecidableEq

/-- `type DataType int`; the zero value 0 is the undefined type. -/
abbrev DataType := Int

/-- Modelled from the spec: the semantic value types named in the spec
examples (`String`, `Integer`); the concrete enum constants live outside
`src/`.  Zero is the undefined type. -/
def stringType : DataType := 1

/-- Modelled from the spec: the `Integer` semantic type constant. -/
def intType : DataType := 2

/-- ColumnInfo from table_info.go. -/
structure ColumnInfo where
  name : String
  keyType : KeyType
  dataType : DataType
deriving DecidableEq

/-- ConstraintPart from table_info.go. -/
structure ConstraintPart where
  tableName : String
  columnName : String
  remoteTableName : String
  remoteColumnName : String
deriving DecidableEq

/-- ForeignKeyConstraint from table_info.go. -/
structure ForeignKeyConstraint where
  parts : List ConstraintPart
deriving DecidableEq

/-- TableInfo from table_info.go.  Go maps are embedded as association
lists (in Go insertion/enumeration order) and the referenced-tables set
as a duplicate-free list. -/
structure TableInfo where
  tableName : String
  columns : List (String × ColumnInfo)
  referencedTables : List String
  foreignKeyConstraints : List (String × ForeignKeyConstraint)
  constraintSources : List ForeignKeyConstraint
deriving DecidableEq

/-- ColumnOutput from table_info.go: one decoded row of the
describe-columns query. -/
structure ColumnOutput where
  fieldName : String
  dataType : String
  keyType : String
deriving DecidableEq

/-- One decoded row of the foreign-key usage query:
COLUMN_NAME, CONSTRAINT_NAME, REFERENCED_TABLE_NAME, REFERENCED_COLUMN_NAME. -/
structure FKRow where
  columnName : String
  constraintName : String
  referencedTableName : String
  referencedColumnName : String
deriving DecidableEq

/-- Character-list core of Go `strings.HasPrefix`. -/
def hasPreList : List Char → List Char → Bool
  | [], _ => true
  | _ :: _, [] => false
  | a :: as, b :: bs => a == b && hasPreList as bs

/-- Go `strings.HasPrefix s pre` (byte-wise in Go; character-wise here). -/
def strHasPre (pre s : String) : Bool := hasPreList pre.data s.data

/-- The `range mysqlTypePrefixToGoType` loop of `getColumnInfo`: take the
first entry (in the map's enumeration order, which Go leaves unspecified)
whose key is a prefix of the vendor type string, breaking there; if no
entry matches, the `ColumnInfo{}` zero value 0 remains. -/
def resolveDataType (lookup : List (String × DataType)) (s : String) : DataType :=
  match lookup with
  | [] => 0
  | (pre, goType) :: rest => if strHasPre pre s then goType else resolveDataType rest s

/-- The `switch columnOutput.keyType` of `getColumnInfo`:
"PRI" and "MUL" are recognized, everything else keeps the zero value NONE. -/
def classifyKey (s : String) : KeyType :=
  if s = "PRI" then KeyType.PRIMARY
  else if s = "MUL" then KeyType.MULTI
  else KeyType.NONE

/-- getColumnInfo from table_info.go, parameterized by the enumeration
order of the external `mysqlTypePrefixToGoType` map. -/
def getColumnInfo (lookup : List (String × DataType)) (columnOutput : ColumnOutput) :
    ColumnInfo :=
  { name := columnOutput.fieldName
    keyType := classifyKey columnOutput.keyType
    dataType := resolveDataType lookup columnOutput.dataType }

/-- Modelled from the spec: the fixed vendor-type-prefix lookup table
`mysqlTypePrefixToGoType` is not under `src/`; the spec's testable
properties give it as the two-entry table
varchar maps to String, int maps to Integer. -/
def mysqlTypePrefixToGoType : List (String × DataType) :=
  [("varchar", stringType), ("int", intType)]

/-- Insert into a Go map embedded as an association list: replace the
value at an existing key, otherwise append the new binding. -/
def mapInsert {α : Type} (m : List (String × α)) (k : String) (v : α) :
    List (String × α) :=
  if m.any (fun kv => kv.1 == k) then
    m.map (fun kv => if kv.1 == k then (k, v) else kv)
  else m ++ [(k, v)]

/-- Go map lookup on the association-list embedding. -/
def lookupKey {α : Type} (m : List (String × α)) (k : String) : Option α :=
  (m.find? (fun kv => kv.1 == k)).map Prod.snd

/-- Insert into a Go set (`map[string]interface{}`) embedded as a
duplicate-free list. -/
def setInsert (s : List String) (x : String) : List String :=
  if s.contains x then s else s ++ [x]

/-- The column-scan loop of getTableInfo: each row either fails to scan
(returning the "unable to scan table description result" error) or is
classified and stored in the columns map, keyed by field name. -/
def scanColumns (lookup : List (String × DataType)) (table : String)
    (ti : TableInfo) (rows : List (Except String ColumnOutput)) : GoOutcome TableInfo :=
  match rows with
  | [] => GoOutcome.ok ti
  | Except.error e :: _ =>
      GoOutcome.errReturn
        ("unable to scan table description result for table " ++ table ++ ": " ++ e)
  | Except.ok co :: rest =>
      scanColumns lookup table
        { ti with columns := mapInsert ti.columns co.fieldName (getColumnInfo lookup co) }
        rest

/-- The foreign-key-usage loop of getTableInfo.  The source declares
`var constraint *ForeignKeyConstraint` (nil) and then writes
`if constraint, ok := tableInfo.foreignKeyConstraints[constraintName]; !ok`,
whose `:=` declares a NEW `constraint` scoped to the if statement and
shadowing the outer one.  The outer `constraint` therefore stays nil, and
the following `constraint.parts = append(constraint.parts, ...)`
dereferences a nil pointer: every successfully scanned usage row panics.
The dead state updates that the source performs before the dereference
are kept below as the unused `_ti2`. -/
def scanFKRows (table : String) (ti : TableInfo)
    (rows : List (Except String FKRow)) : GoOutcome TableInfo :=
  match rows with
  | [] => GoOutcome.ok ti
  | Except.error e :: _ =>
      GoOutcome.errReturn ("unable to scan usage info for table " ++ table ++ ": " ++ e)
  | Except.ok row :: _rest =>
      let ti1 := { ti with referencedTables := setInsert ti.referencedTables row.referencedTableName }
      let _ti2 :=
        if (lookupKey ti1.foreignKeyConstraints row.constraintName).isSome then ti1
        else { ti1 with foreignKeyConstraints :=
                ti1.foreignKeyConstraints ++ [(row.constraintName, ForeignKeyConstraint.mk [])] }
      GoOutcome.fatal nilDerefMsg

/-- getTableInfo from table_info.go.  The two metadata queries are
abstracted as their results: either a query-execution error or a list of
rows, each row either a scan failure or its decoded value. -/
def getTableInfo (lookup : List (String × DataType)) (table : String)
    (colQuery : Except String (List (Except String ColumnOutput)))
    (fkQuery : Except String (List (Except String FKRow))) : GoOutcome TableInfo :=
  match colQuery with
  | Except.error e => GoOutcome.errReturn e
  | Except.ok colRows =>
      let ti0 : TableInfo :=
        { tableName := table
          columns := []
          referencedTables := []
          foreignKeyConstraints := []
          constraintSources := [] }
      match scanColumns lookup table ti0 colRows with
      | GoOutcome.errReturn m => GoOutcome.errReturn m
      | GoOutcome.fatal m => GoOutcome.fatal m
      | GoOutcome.ok ti1 =>
          match fkQuery with
          | Except.error e => GoOutcome.errReturn e
          | Except.ok fkRows => scanFKRows table ti1 fkRows

/-- The part-reversal performed inside validateAndGetReverse: note that
the source sets the reverse part's tableName from the original
remoteColumnName (not the remote table name). -/
def reversePart (p : ConstraintPart) : ConstraintPart :=
  { tableName := p.remoteColumnName
    columnName := p.remoteColumnName
    remoteTableName := p.tableName
    remoteColumnName := p.columnName }

/-- The loop of validateAndGetReverse: `remoteTableName` starts empty;
while it is empty it is (re)assigned from the current part, otherwise
`x.AssertTrue` compares the current part's remote table against it; each
surviving part is appended in reversed form. -/
def revLoop (acc : String) (parts : List ConstraintPart) (out : List ConstraintPart) :
    GoOutcome (String × List ConstraintPart) :=
  match parts with
  | [] => GoOutcome.ok (acc, out)
  | p :: rest =>
      if acc = "" then revLoop p.remoteTableName rest (out ++ [reversePart p])
      else if p.remoteTableName = acc then revLoop acc rest (out ++ [reversePart p])
      else GoOutcome.fatal assertMsg

/-- Wraps the loop result back into a ForeignKeyConstraint. -/
def finishReverse : GoOutcome (String × List ConstraintPart) →
    GoOutcome (String × ForeignKeyConstraint)
  | GoOutcome.ok (r, ps) => GoOutcome.ok (r, ForeignKeyConstraint.mk ps)
  | GoOutcome.errReturn m => GoOutcome.errReturn m
  | GoOutcome.fatal m => GoOutcome.fatal m

/-- validateAndGetReverse from table_info.go. -/
def validateAndGetReverse (constraint : ForeignKeyConstraint) :
    GoOutcome (String × ForeignKeyConstraint) :=
  finishReverse (revLoop "" constraint.parts [])

/-- Reversing twice: feed the reverse constraint back into
validateAndGetReverse. -/
def doubleReverse (c : ForeignKeyConstraint) : GoOutcome (String × ForeignKeyConstraint) :=
  match validateAndGetReverse c with
  | GoOutcome.ok (_, rc) => validateAndGetReverse rc
  | GoOutcome.errReturn m => GoOutcome.errReturn m
  | GoOutcome.fatal m => GoOutcome.fatal m

/-- The whole-model reversal of a constraint: every part reversed. -/
def reverseOf (c : ForeignKeyConstraint) : ForeignKeyConstraint :=
  ForeignKeyConstraint.mk (c.parts.map reversePart)

/-- The remote table named by the first part of a constraint (the value
validateAndGetReverse returns for a consistent nonempty constraint). -/
def headRemote (c : ForeignKeyConstraint) : String :=
  match c.parts with
  | [] => ""
  | p :: _ => p.remoteTableName

/-- A constraint with at least one part, all parts naming the same
remote table. -/
def consistentNonempty (c : ForeignKeyConstraint) : Prop :=
  c.parts ≠ [] ∧ ∀ p ∈ c.parts, p.remoteTableName = headRemote c

instance (c : ForeignKeyConstraint) : Decidable (consistentNonempty c) := by
  unfold consistentNonempty; infer_instance

/-- `tables[name]` on the model: Go map lookup by table name. -/
def lookupTable (tables : List TableInfo) (name : String) : Option TableInfo :=
  tables.find? (fun t => t.tableName == name)

/-- `tables[name].constraintSources = append(..., rc)`: append one reverse
constraint to the constraintSources of the table(s) named `name`. -/
def appendSource (tables : List TableInfo) (name : String) (rc : ForeignKeyConstraint) :
    List TableInfo :=
  tables.map (fun t =>
    if t.tableName == name then
      { t with constraintSources := t.constraintSources ++ [rc] }
    else t)

/-- One iteration of the inner loop of populateReferencedByColumns:
reverse the constraint, then append it at `tables[reverseTable]`; a
missing reverse table makes the field assignment dereference the nil map
value, i.e. panic. -/
def resolveConstraint (tables : List TableInfo) (c : ForeignKeyConstraint) :
    GoOutcome (List TableInfo) :=
  match validateAndGetReverse c with
  | GoOutcome.ok (reverseTable, reverseConstraint) =>
      if (lookupTable tables reverseTable).isSome then
        GoOutcome.ok (appendSource tables reverseTable reverseConstraint)
      else GoOutcome.fatal nilDerefMsg
  | GoOutcome.errReturn m => GoOutcome.errReturn m
  | GoOutcome.fatal m => GoOutcome.fatal m

/-- The outbound constraints of all tables, in iteration order (Go map
iteration order is embedded as the list order); the nested loops of
populateReferencedByColumns visit exactly these. -/
def outboundConstraints : List TableInfo → List ForeignKeyConstraint
  | [] => []
  | t :: ts => t.foreignKeyConstraints.map Prod.snd ++ outboundConstraints ts

/-- The nested loops of populateReferencedByColumns, threading the
mutated model; a panic aborts the remaining iterations. -/
def runResolve (jobs : List ForeignKeyConstraint) (tables : List TableInfo) :
    GoOutcome (List TableInfo) :=
  match jobs with
  | [] => GoOutcome.ok tables
  | c :: rest =>
      match resolveConstraint tables c with
      | GoOutcome.ok tables2 => runResolve rest tables2
      | GoOutcome.errReturn m => GoOutcome.errReturn m
      | GoOutcome.fatal m => GoOutcome.fatal m

/-- populateReferencedByColumns from table_info.go.  The iterated
constraint lists are never mutated by the pass (only constraintSources
is), so iterating the snapshot `outboundConstraints tables` is faithful
to the Go range loops. -/
def populateReferencedByColumns (tables : List TableInfo) : GoOutcome (List TableInfo) :=
  runResolve (outboundConstraints tables) tables

/-- The reverse constraints a single table receives from a job list. -/
def reverseTargets (jobs : List ForeignKeyConstraint) (name : String) :
    List ForeignKeyConstraint :=
  (jobs.filter (fun c => headRemote c == name)).map reverseOf

/-- Functional description of one resolver pass over a job list. -/
def applyJobs (jobs : List ForeignKeyConstraint) (tables : List TableInfo) :
    List TableInfo :=
  tables.map (fun t =>
    { t with constraintSources := t.constraintSources ++ reverseTargets jobs t.tableName })

/-- Functional description of one full resolver pass. -/
def resolveSpec (tables : List TableInfo) : List TableInfo :=
  applyJobs (outboundConstraints tables) tables

/-- Longest-prefix-match resolution, modelled from the spec: among the
lookup entries whose key is a prefix of the type string, take one of
maximal key length (the first such on ties); no match yields 0. -/
def longestPrefixResolve (lookup : List (String × DataType)) (s : String) : DataType :=
  let hits := lookup.filter (fun kv => strHasPre kv.1 s)
  match hits.foldl
      (fun best kv =>
        match best with
        | none => some kv
        | some b => if kv.1.length > b.1.length then some kv else some b)
      none with
  | none => 0
  | some kv => kv.2

theorem revLoop_acc (acc : String) (hacc : acc ≠ "") (parts : List ConstraintPart) :
    ∀ out, (∀ p ∈ parts, p.remoteTableName = acc) →
      revLoop acc parts out = GoOutcome.ok (acc, out ++ parts.map reversePart) := by
  induction parts with
  | nil => intro out _; simp [revLoop]
  | cons p rest ih =>
      intro out h
      have hp : p.remoteTableName = acc := h p (List.mem_cons_self p rest)
      have hrest : ∀ q ∈ rest, q.remoteTableName = acc :=
        fun q hq => h q (List.mem_cons_of_mem p hq)
      simp only [revLoop]
      rw [if_neg hacc, if_pos hp, ih (out ++ [reversePart p]) hrest]
      simp

theorem revLoop_empty (parts : List ConstraintPart) :
    ∀ out, (∀ p ∈ parts, p.remoteTableName = "") →
      revLoop "" parts out = GoOutcome.ok ("", out ++ parts.map reversePart) := by
  induction parts with
  | nil => intro out _; simp [revLoop]
  | cons p rest ih =>
      intro out h
      have hp : p.remoteTableName = "" := h p (List.mem_cons_self p rest)
      have hrest : ∀ q ∈ rest, q.remoteTableName = "" :=
        fun q hq => h q (List.mem_cons_of_mem p hq)
      simp only [revLoop]
      rw [if_pos trivial, hp, ih (out ++ [reversePart p]) hrest]
      simp

theorem validateAndGetReverse_consistent (c : ForeignKeyConstraint) (R : String)
    (hne : c.parts ≠ []) (hall : ∀ p ∈ c.parts, p.remoteTableName = R) :
    validateAndGetReverse c = GoOutcome.ok (R, reverseOf c) := by
  obtain ⟨p, rest, hpr⟩ : ∃ p rest, c.parts = p :: rest := by
    cases hc : c.parts with
    | nil => exact absurd hc hne
    | cons a as => exact ⟨a, as, rfl⟩
  have hp : p.remoteTableName = R := hall p (hpr ▸ List.mem_cons_self p rest)
  have hrest : ∀ q ∈ rest, q.remoteTableName = R :=
    fun q hq => hall q (hpr ▸ List.mem_cons_of_mem p hq)
  unfold validateAndGetReverse reverseOf
  rw [hpr]
  by_cases hR : R = ""
  · subst hR
    rw [revLoop_empty (p :: rest) []
      (by intro q hq; rcases List.mem_cons.mp hq with h1 | h1
          · rw [h1]; exact hp
          · exact hrest q h1)]
    rfl
  · simp only [revLoop]
    rw [if_pos trivial, hp]
    simp only [List.nil_append]
    rw [revLoop_acc R hR rest [reversePart p] hrest]
    rfl

theorem revLoop_mismatch (acc : String) (hacc : acc ≠ "") (parts : List ConstraintPart) :
    ∀ out, (∃ q ∈ parts, q.remoteTableName ≠ acc) →
      revLoop acc parts out = GoOutcome.fatal assertMsg := by
  induction parts with
  | nil => intro out h; obtain ⟨q, hq, _⟩ := h; exact absurd hq (List.not_mem_nil q)
  | cons p rest ih =>
      intro out h
      by_cases hp : p.remoteTableName = acc
      · obtain ⟨q, hq, hqne⟩ := h
        have hqrest : q ∈ rest := by
          rcases List.mem_cons.mp hq with h1 | h1
          · exact absurd (h1 ▸ hp) hqne
          · exact h1
        simp only [revLoop]
        rw [if_neg hacc, if_pos hp]
        exact ih (out ++ [reversePart p]) ⟨q, hqrest, hqne⟩
      · simp only [revLoop]
        rw [if_neg hacc, if_neg hp]

/-- C2: for a constraint all of whose parts share the remote table R,
validateAndGetReverse returns R together with one reverse part per
original part, each reverse part being
(tableName = remoteColumn, columnName = remoteColumn,
 remoteTableName = localTable, remoteColumnName = localColumn). -/
theorem validate_reverse_swaps (c : ForeignKeyConstraint) (R : String)
    (hne : c.parts ≠ []) (hall : ∀ p ∈ c.parts, p.remoteTableName = R) :
    validateAndGetReverse c
      = GoOutcome.ok (R, ForeignKeyConstraint.mk (c.parts.map reversePart)) :=
  validateAndGetReverse_consistent c R hne hall

/-- Witness for C2 at the spec's registration/student example. -/
theorem validate_reverse_swaps_witness :
    validateAndGetReverse
        (ForeignKeyConstraint.mk [ConstraintPart.mk "registration" "student_id" "student" "id"])
      = GoOutcome.ok ("student",
          ForeignKeyConstraint.mk [ConstraintPart.mk "id" "id" "registration" "student_id"]) :=
  validate_reverse_swaps
    (ForeignKeyConstraint.mk [ConstraintPart.mk "registration" "student_id" "student" "id"])
    "student" (by decide) (by decide)

/-- Constraint whose first part has an empty remote table name and whose
second part names a different remote table. -/
def c3cex : ForeignKeyConstraint :=
  ForeignKeyConstraint.mk
    [ConstraintPart.mk "t" "c1" "" "r1", ConstraintPart.mk "t" "c2" "course" "r2"]

/-- C3 is false as stated: c3cex has two parts naming different remote
tables (the empty string and "course"), yet validateAndGetReverse does
not fire the assertion and returns a reverse constraint, because the
loop treats an empty accumulator as not-yet-assigned and skips the
consistency check for parts whose remote name is empty. -/
theorem assert_skipped_on_empty_remote :
    c3cex.parts.map (fun p => p.remoteTableName) = ["", "course"] ∧
    ("" : String) ≠ "course" ∧
    validateAndGetReverse c3cex
      = GoOutcome.ok ("course",
          ForeignKeyConstraint.mk
            [ConstraintPart.mk "r1" "r1" "t" "c1", ConstraintPart.mk "r2" "r2" "t" "c2"]) :=
  ⟨rfl, by decide, rfl⟩

/-- C3 (amended): for a constraint all of whose parts carry non-empty
remote table names, validateAndGetReverse panics through the assertion
when two parts name different remote tables, and returns a reverse
constraint when all parts name the same remote table. -/
theorem assert_fires_on_mismatch (c : ForeignKeyConstraint)
    (hne : ∀ p ∈ c.parts, p.remoteTableName ≠ "") :
    ((∃ p ∈ c.parts, ∃ q ∈ c.parts, p.remoteTableName ≠ q.remoteTableName) →
        validateAndGetReverse c = GoOutcome.fatal assertMsg) ∧
    ((∀ p ∈ c.parts, ∀ q ∈ c.parts, p.remoteTableName = q.remoteTableName) →
        ∃ out, validateAndGetReverse c = GoOutcome.ok out) := by
  constructor
  · rintro ⟨p, hp, q, hq, hpq⟩
    obtain ⟨a, rest, ha⟩ : ∃ a rest, c.parts = a :: rest := by
      cases hc : c.parts with
      | nil => rw [hc] at hp; exact absurd hp (List.not_mem_nil p)
      | cons x xs => exact ⟨x, xs, rfl⟩
    have hane : a.remoteTableName ≠ "" := hne a (ha ▸ List.mem_cons_self a rest)
    have hex : ∃ r ∈ rest, r.remoteTableName ≠ a.remoteTableName := by
      by_cases h1 : p.remoteTableName = a.remoteTableName
      · have h2 : q.remoteTableName ≠ a.remoteTableName := by
          intro hh; exact hpq (h1.trans hh.symm)
        have hqrest : q ∈ rest := by
          rw [ha] at hq
          rcases List.mem_cons.mp hq with h3 | h3
          · exact absurd (h3 ▸ rfl) (h3 ▸ h2)
          · exact h3
        exact ⟨q, hqrest, h2⟩
      · have hprest : p ∈ rest := by
          rw [ha] at hp
          rcases List.mem_cons.mp hp with h3 | h3
          · exact absurd (h3 ▸ rfl) (h3 ▸ h1)
          · exact h3
        exact ⟨p, hprest, h1⟩
    unfold validateAndGetReverse
    rw [ha]
    simp only [revLoop]
    rw [if_pos trivial, revLoop_mismatch a.remoteTableName hane rest _ hex]
    rfl
  · intro hall
    cases hc : c.parts with
    | nil =>
        refine ⟨("", ForeignKeyConstraint.mk []), ?_⟩
        unfold validateAndGetReverse
        rw [hc]
        rfl
    | cons a rest =>
        refine ⟨(a.remoteTableName, reverseOf c), ?_⟩
        apply validateAndGetReverse_consistent c a.remoteTableName (by rw [hc]; simp)
        intro p hpmem
        exact hall p hpmem a (hc ▸ List.mem_cons_self a rest)

/-- Witness for C3 at the spec's two-remote-table example. -/
theorem assert_fires_on_mismatch_witness :
    validateAndGetReverse
        (ForeignKeyConstraint.mk
          [ConstraintPart.mk "t" "student_id" "student" "id",
           ConstraintPart.mk "t" "course_id" "course" "id"])
      = GoOutcome.fatal assertMsg :=
  (assert_fires_on_mismatch
    (ForeignKeyConstraint.mk
      [ConstraintPart.mk "t" "student_id" "student" "id",
       ConstraintPart.mk "t" "course_id" "course" "id"])
    (by decide)).1 (by decide)

/-- Constraint whose parts share the remote table but sit on two
different local tables. -/
def c4cex : ForeignKeyConstraint :=
  ForeignKeyConstraint.mk
    [ConstraintPart.mk "a" "c1" "R" "r1", ConstraintPart.mk "b" "c2" "R" "r2"]

/-- C4 is false as stated: all parts of c4cex share the remote table "R",
yet reversing twice panics through the assertion instead of reproducing
the column pairs, because the reversed parts carry the two distinct
original local tables as their remote tables. -/
theorem double_reverse_fails_cex :
    (∀ p ∈ c4cex.parts, p.remoteTableName = "R") ∧
    doubleReverse c4cex = GoOutcome.fatal assertMsg :=
  ⟨by decide, rfl⟩

/-- C4 (amended): for a constraint whose parts all share one remote table
R and one local table T, reversing twice succeeds, returns T, and
reproduces exactly the original list of (local column, remote column)
pairs. -/
theorem double_reverse_pairs (c : ForeignKeyConstraint) (R T : String)
    (hne : c.parts ≠ [])
    (hr : ∀ p ∈ c.parts, p.remoteTableName = R)
    (hl : ∀ p ∈ c.parts, p.tableName = T) :
    ∃ c2 : ForeignKeyConstraint,
      doubleReverse c = GoOutcome.ok (T, c2) ∧
      c2.parts.map (fun p => (p.columnName, p.remoteColumnName))
        = c.parts.map (fun p => (p.columnName, p.remoteColumnName)) := by
  refine ⟨reverseOf (reverseOf c), ?_, ?_⟩
  · unfold doubleReverse
    rw [validateAndGetReverse_consistent c R hne hr]
    apply validateAndGetReverse_consistent (reverseOf c) T
    · simpa [reverseOf] using hne
    · intro p hp
      simp only [reverseOf, List.mem_map] at hp
      obtain ⟨q, hq, rfl⟩ := hp
      simpa [reversePart] using hl q hq
  · simp [reverseOf, List.map_map, Function.comp, reversePart]

/-- Witness for C4 at the registration/student constraint. -/
theorem double_reverse_pairs_witness :
    ∃ c2 : ForeignKeyConstraint,
      doubleReverse
          (ForeignKeyConstraint.mk [ConstraintPart.mk "registration" "student_id" "student" "id"])
        = GoOutcome.ok ("registration", c2) ∧
      c2.parts.map (fun p => (p.columnName, p.remoteColumnName))
        = [("student_id", "id")] :=
  double_reverse_pairs
    (ForeignKeyConstraint.mk [ConstraintPart.mk "registration" "student_id" "student" "id"])
    "student" "registration" (by decide) (by decide) (by decide)

/-- C1: processing the spec's two foreign-key usage rows for table
registration does not populate the referenced-tables set and the two
constraints; it panics on the first row with a nil-pointer dereference,
because the `if constraint, ok := ...` statement shadows the outer
`constraint` variable that is subsequently dereferenced. -/
theorem fk_accumulation_panics :
    getTableInfo mysqlTypePrefixToGoType "registration" (Except.ok [])
        (Except.ok [Except.ok (FKRow.mk "student_id" "fk1" "student" "id"),
                    Except.ok (FKRow.mk "course_id" "fk2" "course" "id")])
      = GoOutcome.fatal nilDerefMsg := rfl

/-- C8: the error paths of getTableInfo return an error and no record
(query-execution failures return the underlying error verbatim, row-scan
failures return the table-identifying scan error), and a build with no
foreign-key rows returns the populated record; but a build whose
foreign-key query yields any row panics instead of returning, so the
failure-free contract does not hold. -/
theorem getTableInfo_error_paths :
    getTableInfo mysqlTypePrefixToGoType "t" (Except.error "connection refused") (Except.ok [])
        = GoOutcome.errReturn "connection refused" ∧
    getTableInfo mysqlTypePrefixToGoType "t" (Except.ok [Except.error "bad row"]) (Except.ok [])
        = GoOutcome.errReturn "unable to scan table description result for table t: bad row" ∧
    getTableInfo mysqlTypePrefixToGoType "t" (Except.ok []) (Except.error "usage query failed")
        = GoOutcome.errReturn "usage query failed" ∧
    getTableInfo mysqlTypePrefixToGoType "t" (Except.ok []) (Except.ok [Except.error "bad fk row"])
        = GoOutcome.errReturn "unable to scan usage info for table t: bad fk row" ∧
    getTableInfo mysqlTypePrefixToGoType "t"
        (Except.ok [Except.ok (ColumnOutput.mk "id" "int(11)" "PRI")]) (Except.ok [])
        = GoOutcome.ok
            (TableInfo.mk "t" [("id", ColumnInfo.mk "id" KeyType.PRIMARY intType)] [] [] []) ∧
    getTableInfo mysqlTypePrefixToGoType "t" (Except.ok [])
        (Except.ok [Except.ok (FKRow.mk "sid" "fk" "s" "id")])
        = GoOutcome.fatal nilDerefMsg :=
  ⟨rfl, rfl, rfl, rfl, rfl, rfl⟩

theorem appendSource_names (tables : List TableInfo) (name : String)
    (rc : ForeignKeyConstraint) :
    (appendSource tables name rc).map (fun t => t.tableName)
      = tables.map (fun t => t.tableName) := by
  unfold appendSource
  rw [List.map_map]
  apply List.map_congr_left
  intro t _
  by_cases h : (t.tableName == name) = true <;> simp [h, Function.comp]

theorem revLoop_ne_err (parts : List ConstraintPart) :
    ∀ acc out m, revLoop acc parts out ≠ GoOutcome.errReturn m := by
  induction parts with
  | nil => intro acc out m h; exact absurd h (by simp [revLoop])
  | cons p rest ih =>
      intro acc out m h
      simp only [revLoop] at h
      by_cases h1 : acc = ""
      · rw [if_pos h1] at h; exact ih p.remoteTableName (out ++ [reversePart p]) m h
      · rw [if_neg h1] at h
        by_cases h2 : p.remoteTableName = acc
        · rw [if_pos h2] at h; exact ih acc (out ++ [reversePart p]) m h
        · rw [if_neg h2] at h; exact absurd h (by simp)

theorem validateAndGetReverse_ne_err (c : ForeignKeyConstraint) (m : String) :
    validateAndGetReverse c ≠ GoOutcome.errReturn m := by
  unfold validateAndGetReverse
  intro h
  cases hv : revLoop "" c.parts [] with
  | ok rp => rw [hv] at h; exact absurd h (by simp [finishReverse])
  | errReturn m2 => exact revLoop_ne_err c.parts "" [] m2 hv
  | fatal m2 => rw [hv] at h; exact absurd h (by simp [finishReverse])

theorem resolveConstraint_ne_err (tables : List TableInfo) (c : ForeignKeyConstraint)
    (m : String) : resolveConstraint tables c ≠ GoOutcome.errReturn m := by
  unfold resolveConstraint
  intro h
  split at h
  · split at h
    · exact absurd h (by simp)
    · exact absurd h (by simp)
  · rename_i m2 heq
    exact validateAndGetReverse_ne_err c m2 heq
  · exact absurd h (by simp)

theorem resolveConstraint_ok_names (tables t2 : List TableInfo) (c : ForeignKeyConstraint)
    (h : resolveConstraint tables c = GoOutcome.ok t2) :
    t2.map (fun t => t.tableName) = tables.map (fun t => t.tableName) := by
  unfold resolveConstraint at h
  split at h
  · rename_i reverseTable reverseConstraint heq
    split at h
    · simp only [GoOutcome.ok.injEq] at h
      rw [← h]
      exact appendSource_names tables reverseTable reverseConstraint
    · exact absurd h (by simp)
  · exact absurd h (by simp)
  · exact absurd h (by simp)

theorem lookupTable_isSome_of_mem (tables : List TableInfo) (name : String)
    (h : name ∈ tables.map (fun t => t.tableName)) :
    (lookupTable tables name).isSome := by
  obtain ⟨t, ht, he⟩ := List.mem_map.mp h
  unfold lookupTable
  exact List.find?_isSome.mpr ⟨t, ht, by rw [beq_iff_eq]; exact he⟩

theorem lookupTable_some_mem (tables : List TableInfo) (name : String) (u : TableInfo)
    (h : lookupTable tables name = some u) :
    name ∈ tables.map (fun t => t.tableName) := by
  unfold lookupTable at h
  have hmem : u ∈ tables := List.mem_of_find?_eq_some h
  have hp := List.find?_some h
  simp only [beq_iff_eq] at hp
  exact List.mem_map.mpr ⟨u, hmem, hp⟩

theorem resolveConstraint_consistent (tables : List TableInfo) (c : ForeignKeyConstraint)
    (hc : consistentNonempty c)
    (hmem : headRemote c ∈ tables.map (fun t => t.tableName)) :
    resolveConstraint tables c
      = GoOutcome.ok (appendSource tables (headRemote c) (reverseOf c)) := by
  unfold resolveConstraint
  rw [validateAndGetReverse_consistent c (headRemote c) hc.1 hc.2]
  show (if (lookupTable tables (headRemote c)).isSome then
          GoOutcome.ok (appendSource tables (headRemote c) (reverseOf c))
        else GoOutcome.fatal nilDerefMsg)
      = GoOutcome.ok (appendSource tables (headRemote c) (reverseOf c))
  rw [if_pos (lookupTable_isSome_of_mem tables (headRemote c) hmem)]

theorem reverseTargets_cons (c : ForeignKeyConstraint) (rest : List ForeignKeyConstraint)
    (name : String) :
    reverseTargets (c :: rest) name
      = if headRemote c == name then reverseOf c :: reverseTargets rest name
        else reverseTargets rest name := by
  unfold reverseTargets
  by_cases h : (headRemote c == name) = true
  · simp [List.filter_cons, h]
  · simp [List.filter_cons, h]

theorem applyJobs_nil (tables : List TableInfo) : applyJobs [] tables = tables := by
  unfold applyJobs
  have he : ∀ t : TableInfo,
      ({ t with constraintSources :=
          t.constraintSources ++ reverseTargets [] t.tableName } : TableInfo) = t := by
    intro t
    simp [reverseTargets]
  calc tables.map _ = tables.map id := List.map_congr_left (fun t _ => he t)
    _ = tables := List.map_id tables

theorem applyJobs_cons (c : ForeignKeyConstraint) (rest : List ForeignKeyConstraint)
    (tables : List TableInfo) :
    applyJobs (c :: rest) tables
      = applyJobs rest (appendSource tables (headRemote c) (reverseOf c)) := by
  unfold applyJobs appendSource
  rw [List.map_map]
  apply List.map_congr_left
  intro t _
  by_cases h : t.tableName = headRemote c
  · simp [Function.comp, reverseTargets_cons, h]
  · have h2 : ¬(headRemote c = t.tableName) := fun hh => h hh.symm
    simp [Function.comp, reverseTargets_cons, h, h2]

theorem runResolve_spec (jobs : List ForeignKeyConstraint) :
    ∀ tables : List TableInfo,
      (∀ c ∈ jobs, consistentNonempty c) →
      (∀ c ∈ jobs, headRemote c ∈ tables.map (fun t => t.tableName)) →
      runResolve jobs tables = GoOutcome.ok (applyJobs jobs tables) := by
  induction jobs with
  | nil => intro tables _ _; rw [applyJobs_nil]; rfl
  | cons c rest ih =>
      intro tables hcons hclosed
      have hc : consistentNonempty c := hcons c (List.mem_cons_self c rest)
      have hm : headRemote c ∈ tables.map (fun t => t.tableName) :=
        hclosed c (List.mem_cons_self c rest)
      unfold runResolve
      rw [resolveConstraint_consistent tables c hc hm]
      show runResolve rest (appendSource tables (headRemote c) (reverseOf c))
          = GoOutcome.ok (applyJobs (c :: rest) tables)
      rw [applyJobs_cons]
      apply ih
      · intro d hd; exact hcons d (List.mem_cons_of_mem c hd)
      · intro d hd
        rw [appendSource_names]
        exact hclosed d (List.mem_cons_of_mem c hd)

theorem populate_eq_resolveSpec (tables : List TableInfo)
    (hcons : ∀ c ∈ outboundConstraints tables, consistentNonempty c)
    (hclosed : ∀ c ∈ outboundConstraints tables,
        headRemote c ∈ tables.map (fun t => t.tableName)) :
    populateReferencedByColumns tables = GoOutcome.ok (resolveSpec tables) :=
  runResolve_spec (outboundConstraints tables) tables hcons hclosed

/-- C5: on a model whose outbound constraints are all consistent and
nonempty and whose referenced tables are all present, one resolver run
succeeds and gives every table exactly its previous inbound list plus
one reverse constraint per outbound constraint (of any table) whose
shared remote table is this table, and nothing else. -/
theorem populate_appends_one_reverse_per_constraint (tables : List TableInfo)
    (hcons : ∀ c ∈ outboundConstraints tables, consistentNonempty c)
    (hclosed : ∀ c ∈ outboundConstraints tables,
        headRemote c ∈ tables.map (fun t => t.tableName)) :
    populateReferencedByColumns tables
      = GoOutcome.ok (tables.map (fun t =>
          { t with constraintSources := t.constraintSources ++
              ((outboundConstraints tables).filter
                  (fun c => headRemote c == t.tableName)).map reverseOf })) :=
  populate_eq_resolveSpec tables hcons hclosed

/-- Two-table registration/student model with one outbound constraint. -/
def cw5 : List TableInfo :=
  [ TableInfo.mk "registration" [] ["student"]
      [("fk1", ForeignKeyConstraint.mk
          [ConstraintPart.mk "registration" "student_id" "student" "id"])] [],
    TableInfo.mk "student" [("id", ColumnInfo.mk "id" KeyType.PRIMARY intType)] [] [] [] ]

/-- Witness for C5: resolving cw5 appends exactly the one reverse
constraint to student and nothing to registration. -/
theorem populate_appends_one_reverse_per_constraint_witness :
    populateReferencedByColumns cw5
      = GoOutcome.ok
          [ TableInfo.mk "registration" [] ["student"]
              [("fk1", ForeignKeyConstraint.mk
                  [ConstraintPart.mk "registration" "student_id" "student" "id"])] [],
            TableInfo.mk "student" [("id", ColumnInfo.mk "id" KeyType.PRIMARY intType)] [] []
              [ForeignKeyConstraint.mk
                  [ConstraintPart.mk "id" "id" "registration" "student_id"]] ] := by
  have h := populate_appends_one_reverse_per_constraint cw5 (by decide) (by decide)
  exact h.trans (by decide)

theorem resolveConstraint_consistent_absent (tables : List TableInfo)
    (c : ForeignKeyConstraint) (hc : consistentNonempty c)
    (habs : headRemote c ∉ tables.map (fun t => t.tableName)) :
    resolveConstraint tables c = GoOutcome.fatal nilDerefMsg := by
  unfold resolveConstraint
  rw [validateAndGetReverse_consistent c (headRemote c) hc.1 hc.2]
  show (if (lookupTable tables (headRemote c)).isSome then
          GoOutcome.ok (appendSource tables (headRemote c) (reverseOf c))
        else GoOutcome.fatal nilDerefMsg)
      = GoOutcome.fatal nilDerefMsg
  rw [if_neg]
  intro hs
  obtain ⟨u, hu⟩ := Option.isSome_iff_exists.mp hs
  exact habs (lookupTable_some_mem tables (headRemote c) u hu)

theorem runResolve_fatal (jobs : List ForeignKeyConstraint) :
    ∀ tables : List TableInfo,
      (∃ c ∈ jobs, consistentNonempty c ∧
          headRemote c ∉ tables.map (fun t => t.tableName)) →
      ∃ m, runResolve jobs tables = GoOutcome.fatal m := by
  induction jobs with
  | nil => rintro tables ⟨c, hc, _⟩; exact absurd hc (List.not_mem_nil c)
  | cons j rest ih =>
      rintro tables ⟨c, hc, hcons, habs⟩
      cases hr : resolveConstraint tables j with
      | ok tables2 =>
          have hcrest : c ∈ rest := by
            rcases List.mem_cons.mp hc with h1 | h1
            · exfalso
              subst h1
              rw [resolveConstraint_consistent_absent tables c hcons habs] at hr
              exact absurd hr (by simp)
            · exact h1
          have hnames := resolveConstraint_ok_names tables tables2 j hr
          have habs2 : headRemote c ∉ tables2.map (fun t => t.tableName) := by
            rw [hnames]; exact habs
          unfold runResolve
          rw [hr]
          exact ih tables2 ⟨c, hcrest, hcons, habs2⟩
      | errReturn m => exact absurd hr (resolveConstraint_ne_err tables j m)
      | fatal m =>
          refine ⟨m, ?_⟩
          unfold runResolve
          rw [hr]

/-- C9: if some table's outbound constraint (consistent and nonempty)
names a remote table that is absent from the model, the resolver run
ends in a runtime panic rather than completing or silently dropping the
link. -/
theorem populate_absent_remote_fatal (tables : List TableInfo)
    (h : ∃ c ∈ outboundConstraints tables, consistentNonempty c ∧
        headRemote c ∉ tables.map (fun t => t.tableName)) :
    ∃ m, populateReferencedByColumns tables = GoOutcome.fatal m :=
  runResolve_fatal (outboundConstraints tables) tables h

/-- Model whose single constraint references the absent table student. -/
def cw9 : List TableInfo :=
  [ TableInfo.mk "registration" [] ["student"]
      [("fk1", ForeignKeyConstraint.mk
          [ConstraintPart.mk "registration" "student_id" "student" "id"])] [] ]

/-- Witness for C9 on cw9. -/
theorem populate_absent_remote_fatal_witness :
    ∃ m, populateReferencedByColumns cw9 = GoOutcome.fatal m :=
  populate_absent_remote_fatal cw9 (by decide)

theorem outbound_applyJobs (jobs : List ForeignKeyConstraint) (tables : List TableInfo) :
    outboundConstraints (applyJobs jobs tables) = outboundConstraints tables := by
  induction tables with
  | nil => rfl
  | cons t ts ih =>
      unfold applyJobs at ih ⊢
      simp only [List.map_cons, outboundConstraints]
      rw [ih]

theorem applyJobs_names (jobs : List ForeignKeyConstraint) (tables : List TableInfo) :
    (applyJobs jobs tables).map (fun t => t.tableName)
      = tables.map (fun t => t.tableName) := by
  unfold applyJobs
  rw [List.map_map]
  exact List.map_congr_left (fun t _ => rfl)

theorem applyJobs_getElem (jobs : List ForeignKeyConstraint) (tables : List TableInfo)
    (i : Nat) (h : i < (applyJobs jobs tables).length) (h2 : i < tables.length) :
    (applyJobs jobs tables)[i]
      = { tables[i] with constraintSources :=
            tables[i].constraintSources
              ++ reverseTargets jobs (tables[i].tableName) } := by
  simp only [applyJobs, List.getElem_map]

/-- C10: the resolver has no double-resolution guard: on a closed,
consistent model whose inbound lists start empty, a second run also
succeeds, and every table's inbound list after two runs is exactly twice
as long as after one run. -/
theorem populate_twice_doubles (tables : List TableInfo)
    (hcons : ∀ c ∈ outboundConstraints tables, consistentNonempty c)
    (hclosed : ∀ c ∈ outboundConstraints tables,
        headRemote c ∈ tables.map (fun t => t.tableName))
    (hempty : ∀ t ∈ tables, t.constraintSources = []) :
    populateReferencedByColumns tables = GoOutcome.ok (resolveSpec tables) ∧
    populateReferencedByColumns (resolveSpec tables)
      = GoOutcome.ok (resolveSpec (resolveSpec tables)) ∧
    (resolveSpec (resolveSpec tables)).map (fun t => t.constraintSources.length)
      = (resolveSpec tables).map (fun t => 2 * t.constraintSources.length) := by
  have houtb : outboundConstraints (resolveSpec tables) = outboundConstraints tables :=
    outbound_applyJobs (outboundConstraints tables) tables
  have hnames : (resolveSpec tables).map (fun t => t.tableName)
      = tables.map (fun t => t.tableName) :=
    applyJobs_names (outboundConstraints tables) tables
  refine ⟨populate_eq_resolveSpec tables hcons hclosed, ?_, ?_⟩
  · exact populate_eq_resolveSpec (resolveSpec tables)
      (by rw [houtb]; exact hcons)
      (by rw [houtb, hnames]; exact hclosed)
  · unfold resolveSpec
    rw [outbound_applyJobs]
    unfold applyJobs
    rw [List.map_map, List.map_map, List.map_map]
    apply List.map_congr_left
    intro t ht
    have hcs : t.constraintSources = [] := hempty t ht
    simp only [Function.comp, hcs, List.nil_append, List.length_append]
    omega

/-- Closed student/registration model with empty inbound lists. -/
def cw10 : List TableInfo :=
  [ TableInfo.mk "student" [("id", ColumnInfo.mk "id" KeyType.PRIMARY intType)] [] [] [],
    TableInfo.mk "registration" [] ["student"]
      [("fk1", ForeignKeyConstraint.mk
          [ConstraintPart.mk "registration" "student_id" "student" "id"])] [] ]

/-- Witness for C10: both resolver runs on cw10 succeed. -/
theorem populate_twice_doubles_witness :
    populateReferencedByColumns cw10 = GoOutcome.ok (resolveSpec cw10) ∧
    populateReferencedByColumns (resolveSpec cw10)
      = GoOutcome.ok (resolveSpec (resolveSpec cw10)) := by
  have h := populate_twice_doubles cw10 (by decide) (by decide) (by decide)
  exact ⟨h.1, h.2.1⟩

theorem hasPreList_head (a : Char) (as bs : List Char) (h : hasPreList (a :: as) bs = true) :
    ∃ cs, bs = a :: cs := by
  cases bs with
  | nil => exact absurd h (by simp [hasPreList])
  | cons b cs =>
      simp only [hasPreList, Bool.and_eq_true, beq_iff_eq] at h
      exact ⟨cs, by rw [h.1]⟩

theorem varchar_int_exclusive (s : String) :
    ¬(strHasPre "varchar" s = true ∧ strHasPre "int" s = true) := by
  rintro ⟨h1, h2⟩
  obtain ⟨cs1, e1⟩ := hasPreList_head 'v' "archar".data s.data h1
  obtain ⟨cs2, e2⟩ := hasPreList_head 'i' "nt".data s.data h2
  rw [e1] at e2
  injection e2 with hch _
  exact absurd hch (by decide)

/-- C6: on the spec's fixed lookup table (in either enumeration order of
the Go map), the first-matching-prefix loop of getColumnInfo computes
exactly the longest-prefix-match resolution, an unmatched string keeps
the zero type, and the three spec examples resolve as stated. -/
theorem type_resolution_longest (l : List (String × DataType))
    (hl : l = mysqlTypePrefixToGoType ∨ l = mysqlTypePrefixToGoType.reverse) :
    (∀ s, resolveDataType l s = longestPrefixResolve l s) ∧
    (∀ s, (∀ kv ∈ l, strHasPre kv.1 s = false) → resolveDataType l s = 0) ∧
    (getColumnInfo l (ColumnOutput.mk "c" "varchar(50)" "")).dataType = stringType ∧
    (getColumnInfo l (ColumnOutput.mk "c" "int(11)" "")).dataType = intType ∧
    (getColumnInfo l (ColumnOutput.mk "c" "unknown_type" "")).dataType = 0 := by
  have hrev : mysqlTypePrefixToGoType.reverse
      = [("int", intType), ("varchar", stringType)] := rfl
  rcases hl with rfl | rfl
  · refine ⟨?_, ?_, by decide, by decide, by decide⟩
    · intro s
      by_cases hv : strHasPre "varchar" s = true
      · by_cases hi : strHasPre "int" s = true
        · exact absurd ⟨hv, hi⟩ (varchar_int_exclusive s)
        · simp [mysqlTypePrefixToGoType, resolveDataType, longestPrefixResolve,
            List.filter_cons, hv, hi]
      · by_cases hi : strHasPre "int" s = true
        · simp [mysqlTypePrefixToGoType, resolveDataType, longestPrefixResolve,
            List.filter_cons, hv, hi]
        · simp [mysqlTypePrefixToGoType, resolveDataType, longestPrefixResolve,
            List.filter_cons, hv, hi]
    · intro s h
      have hv := h ("varchar", stringType) (by simp [mysqlTypePrefixToGoType])
      have hi := h ("int", intType) (by simp [mysqlTypePrefixToGoType])
      simp [mysqlTypePrefixToGoType, resolveDataType, hv, hi]
  · rw [hrev]
    refine ⟨?_, ?_, by decide, by decide, by decide⟩
    · intro s
      by_cases hv : strHasPre "varchar" s = true
      · by_cases hi : strHasPre "int" s = true
        · exact absurd ⟨hv, hi⟩ (varchar_int_exclusive s)
        · simp [resolveDataType, longestPrefixResolve, List.filter_cons, hv, hi]
      · by_cases hi : strHasPre "int" s = true
        · simp [resolveDataType, longestPrefixResolve, List.filter_cons, hv, hi]
        · simp [resolveDataType, longestPrefixResolve, List.filter_cons, hv, hi]
    · intro s h
      have hv := h ("varchar", stringType) (by simp)
      have hi := h ("int", intType) (by simp)
      simp [resolveDataType, hv, hi]

/-- Witness for C6 at the spec's three example type strings. -/
theorem type_resolution_longest_witness :
    (getColumnInfo mysqlTypePrefixToGoType (ColumnOutput.mk "c" "varchar(50)" "")).dataType
        = stringType ∧
    (getColumnInfo mysqlTypePrefixToGoType (ColumnOutput.mk "c" "int(11)" "")).dataType
        = intType ∧
    (getColumnInfo mysqlTypePrefixToGoType (ColumnOutput.mk "c" "unknown_type" "")).dataType
        = 0 ∧
    resolveDataType mysqlTypePrefixToGoType "varchar(50)"
        = longestPrefixResolve mysqlTypePrefixToGoType "varchar(50)" := by
  have h := type_resolution_longest mysqlTypePrefixToGoType (Or.inl rfl)
  exact ⟨h.2.2.1, h.2.2.2.1, h.2.2.2.2, h.1 "varchar(50)"⟩

/-- C7: getColumnInfo preserves the column name and classifies the key
string: "PRI" to PRIMARY, "MUL" to MULTI, anything else to NONE. -/
theorem key_classification (lookup : List (String × DataType)) (out : ColumnOutput) :
    (getColumnInfo lookup out).name = out.fieldName ∧
    (out.keyType = "PRI" → (getColumnInfo lookup out).keyType = KeyType.PRIMARY) ∧
    (out.keyType = "MUL" → (getColumnInfo lookup out).keyType = KeyType.MULTI) ∧
    (out.keyType ≠ "PRI" → out.keyType ≠ "MUL" →
        (getColumnInfo lookup out).keyType = KeyType.NONE) := by
  refine ⟨rfl, ?_, ?_, ?_⟩
  · intro h
    show classifyKey out.keyType = KeyType.PRIMARY
    rw [h]
    decide
  · intro h
    show classifyKey out.keyType = KeyType.MULTI
    rw [h]
    decide
  · intro h1 h2
    show classifyKey out.keyType = KeyType.NONE
    unfold classifyKey
    rw [if_neg h1, if_neg h2]

/-- Witness for C7 at the spec's ssn example row and an unrecognized key
string. -/
theorem key_classification_witness :
    (getColumnInfo mysqlTypePrefixToGoType (ColumnOutput.mk "ssn" "varchar(50)" "PRI")).keyType
        = KeyType.PRIMARY ∧
    (getColumnInfo mysqlTypePrefixToGoType (ColumnOutput.mk "x" "int(11)" "XYZ")).keyType
        = KeyType.NONE ∧
    (getColumnInfo mysqlTypePrefixToGoType (ColumnOutput.mk "ssn" "varchar(50)" "PRI")).name
        = "ssn" :=
  ⟨(key_classification mysqlTypePrefixToGoType (ColumnOutput.mk "ssn" "varchar(50)" "PRI")).2.1 rfl,
   (key_classification mysqlTypePrefixToGoType (ColumnOutput.mk "x" "int(11)" "XYZ")).2.2.2
     (by decide) (by decide),
   (key_classification mysqlTypePrefixToGoType (ColumnOutput.mk "ssn" "varchar(50)" "PRI")).1⟩
